import Mathlib

/-!
Shallow embedding of the task/project lifecycle core of the
`nexus-ai-task` service (NestJS + Mongoose).

Sources embedded:
* `src/tasks/tasks.service.ts` — `TasksService.create/findAll/findOne/update/
  remove/restore/getKanbanBoard/updatePosition`
* task schema (with `pre('save')` hook and `addHistoryEntry` method)
* `src/projects/projects.service.ts` — `ProjectsService.create/update/restore`

Modelling conventions:
* The Mongo document store is a `List Task` (resp. `List Project`) in
  insertion order; `findByIdAndUpdate` updates the first document whose
  `_id` matches (single-document atomicity is implicit: each operation
  is one pure function on the store). The board query's
  `.sort({position: 1})` carries no secondary key and Mongo leaves the
  order of documents with equal sort keys unspecified, so it is modelled
  as a relation (`IsPositionSort`): any permutation of the matched
  documents that is pairwise sorted by `position`. `findAll`'s sorted
  list is kept as a function (a `mergeSort`), but every theorem about it
  uses only membership, never the order of its result.
* `ObjectId`s are `Nat`, instants are `Nat` (milliseconds), the float
  `position` is a `Rat` (an ordered key, as the code only compares it).
* Each service method returns `(result, store')`: `result` is
  `Except Err _` (thrown `NotFoundException`/`ConflictException` become
  `Err.notFound`/`Err.conflict`) and `store'` is the store after the
  writes the method performed before returning or throwing.
* JavaScript strict-inequality `newValue !== oldValue` in
  `TasksService.update` compares primitives (strings, numbers) by value;
  for fields holding objects (`labels`, `tags`, `due_date`, `start_date`
  arrive as fresh `Array`/`Date` objects, and `project_id` compares a
  string against a stored `ObjectId`) it is always `true` when the key
  is present, and the embedding records a change unconditionally there.
-/

namespace Nexus

inductive TaskStatus
  | todo
  | in_progress
  | done
  | blocked
deriving DecidableEq, Repr

/-- The wire string of a status (Mongo stores and sorts these strings). -/
def TaskStatus.str : TaskStatus → String
  | .todo => "todo"
  | .in_progress => "in_progress"
  | .done => "done"
  | .blocked => "blocked"

/-- A field value as it appears in a history `changes` record
(`old_value` / `new_value` are `Mixed` in the schema). -/
inductive Value
  | vNull
  | vStr (s : String)
  | vInt (n : Int)
  | vNat (n : Nat)
  | vRat (q : Rat)
  | vStatus (s : TaskStatus)
  | vList (l : List String)
  | vTime (t : Nat)
deriving DecidableEq, Repr

def Value.ofOptStr : Option String → Value
  | none => .vNull
  | some s => .vStr s

def Value.ofOptNat : Option Nat → Value
  | none => .vNull
  | some n => .vNat n

def Value.ofOptTime : Option Nat → Value
  | none => .vNull
  | some t => .vTime t

/-- One element of a history entry's `changes` array. -/
structure Change where
  field : String
  old_value : Value
  new_value : Value
deriving DecidableEq, Repr

/-- One embedded audit record (`TaskHistoryEntry` in the schema). -/
structure HistoryEntry where
  action : String
  user_id : String
  timestamp : Nat
  changes : List Change
deriving DecidableEq, Repr

/-- A task document (fields of the `Task` Mongoose schema). -/
structure Task where
  id : Nat
  team_id : String
  title : String
  description : Option String
  status : TaskStatus
  priority : Int
  project_id : Option Nat
  assignee_id : Option String
  created_by : String
  labels : List String
  tags : List String
  due_date : Option Nat
  start_date : Option Nat
  estimated_hours : Option Rat
  position : Rat
  completed_at : Option Nat
  history : List HistoryEntry
  deleted_at : Option Nat
  created_at : Nat
  updated_at : Nat
deriving DecidableEq, Repr

inductive Err
  | notFound
  | conflict
deriving DecidableEq, Repr

/-- `CreateTaskDto`: all fields optional except `title`. -/
structure CreateTaskDto where
  title : String
  description : Option String := none
  status : Option TaskStatus := none
  priority : Option Int := none
  project_id : Option Nat := none
  assignee_id : Option String := none
  labels : Option (List String) := none
  tags : Option (List String) := none
  due_date : Option Nat := none
  start_date : Option Nat := none
  estimated_hours : Option Rat := none
deriving DecidableEq, Repr

/-- `UpdateTaskDto`: every mutable field optional (absent = not in the patch). -/
structure UpdateTaskDto where
  title : Option String := none
  description : Option String := none
  status : Option TaskStatus := none
  priority : Option Int := none
  project_id : Option Nat := none
  assignee_id : Option String := none
  labels : Option (List String) := none
  tags : Option (List String) := none
  due_date : Option Nat := none
  start_date : Option Nat := none
  estimated_hours : Option Rat := none
  position : Option Rat := none
deriving DecidableEq, Repr

/-- `TaskQueryDto` (the filters `findAll` consults; `labels`/`search` are
delegated to the store's `$in`/text index and are not exercised by any
claim, so they are omitted from the query model). -/
structure TaskQueryDto where
  project_id : Option Nat := none
  status : Option TaskStatus := none
  assignee_id : Option String := none
  priority : Option Int := none
  include_completed : Bool := false
  include_deleted : Bool := false
deriving DecidableEq, Repr

/-- `findByIdAndUpdate`: update the first document whose `_id` matches,
returning the updated document (`{new: true}`) and the new store. -/
def updateById (store : List Task) (id : Nat) (f : Task → Task) :
    Option Task × List Task :=
  match store with
  | [] => (none, [])
  | t :: rest =>
    if t.id = id then (some (f t), f t :: rest)
    else
      let r := updateById rest id f
      (r.1, t :: r.2)

/-- The `findOne({_id, team_id, deleted_at: null})` lookup shared by
`findOne`, `update`, `remove` and `updatePosition`. -/
def findOneT (store : List Task) (id : Nat) (team : String) : Option Task :=
  store.find? fun t => t.id == id && t.team_id == team && t.deleted_at.isNone

/-- `findOne({_id, team_id, deleted_at: {$ne: null}})` used by task `restore`. -/
def findDeletedT (store : List Task) (id : Nat) (team : String) : Option Task :=
  store.find? fun t => t.id == id && t.team_id == team && t.deleted_at.isSome

/-- `TasksService.findOne`: `NotFoundException` when no active document of
this team has the id. -/
def tasksFindOne (store : List Task) (id : Nat) (team : String) :
    Except Err Task :=
  match findOneT store id team with
  | none => .error .notFound
  | some t => .ok t

/-- One key of the field-delta loop of `TasksService.update`: when the key
is present in the patch (`o = some v`) and `newValue !== oldValue`
(`differs v`), record one `{field, old_value, new_value}`. -/
def diffChange {α : Type} (o : Option α) (differs : α → Bool)
    (field : String) (oldV : Value) (newV : α → Value) : List Change :=
  match o with
  | some v => if differs v then [⟨field, oldV, newV v⟩] else []
  | none => []

/-- The field-delta loop of `TasksService.update`: the keys are visited in
the `UpdateTaskDto` declaration order; for the object-typed fields
(`project_id` string-vs-ObjectId, `labels`/`tags` fresh arrays,
`due_date`/`start_date` fresh `Date`s) JavaScript `!==` is reference
inequality and hence always true when the key is present. -/
def computeChanges (t : Task) (p : UpdateTaskDto) : List Change :=
  diffChange p.title (fun v => v != t.title) "title" (.vStr t.title) .vStr
  ++ diffChange p.description (fun v => some v != t.description) "description"
      (Value.ofOptStr t.description) .vStr
  ++ diffChange p.status (fun v => v != t.status) "status" (.vStatus t.status) .vStatus
  ++ diffChange p.priority (fun v => v != t.priority) "priority" (.vInt t.priority) .vInt
  ++ diffChange p.project_id (fun _ => true) "project_id"
      (Value.ofOptNat t.project_id) .vNat
  ++ diffChange p.assignee_id (fun v => some v != t.assignee_id) "assignee_id"
      (Value.ofOptStr t.assignee_id) .vStr
  ++ diffChange p.labels (fun _ => true) "labels" (.vList t.labels) .vList
  ++ diffChange p.tags (fun _ => true) "tags" (.vList t.tags) .vList
  ++ diffChange p.due_date (fun _ => true) "due_date"
      (Value.ofOptTime t.due_date) .vTime
  ++ diffChange p.start_date (fun _ => true) "start_date"
      (Value.ofOptTime t.start_date) .vTime
  ++ diffChange p.estimated_hours (fun v => some v != t.estimated_hours) "estimated_hours"
      (match t.estimated_hours with | none => .vNull | some q => .vRat q) .vRat
  ++ diffChange p.position (fun v => v != t.position) "position" (.vRat t.position) .vRat

/-- `updateTaskDto.status && updateTaskDto.status !== task.status`
(every status enum string is truthy). -/
def statusChangedB (t : Task) (p : UpdateTaskDto) : Bool :=
  match p.status with
  | some s => s != t.status
  | none => false

/-- `updateTaskDto.assignee_id && updateTaskDto.assignee_id !== task.assignee_id`
(the empty string is falsy in JavaScript). -/
def assigneeChangedB (t : Task) (p : UpdateTaskDto) : Bool :=
  match p.assignee_id with
  | some a => a != "" && some a != t.assignee_id
  | none => false

/-- The sequential `if` chain choosing the history action label. -/
def updateAction (t : Task) (p : UpdateTaskDto) : String :=
  if statusChangedB t p then "status_changed"
  else if assigneeChangedB t p then "assigned"
  else "updated"

/-- `$set: {...updateTaskDto}` — overwrite each field present in the patch. -/
def setPatchFields (u : Task) (p : UpdateTaskDto) : Task :=
  { u with
    title := p.title.getD u.title
    description := match p.description with | some v => some v | none => u.description
    status := p.status.getD u.status
    priority := p.priority.getD u.priority
    project_id := match p.project_id with | some v => some v | none => u.project_id
    assignee_id := match p.assignee_id with | some v => some v | none => u.assignee_id
    labels := p.labels.getD u.labels
    tags := p.tags.getD u.tags
    due_date := match p.due_date with | some v => some v | none => u.due_date
    start_date := match p.start_date with | some v => some v | none => u.start_date
    estimated_hours := match p.estimated_hours with | some v => some v | none => u.estimated_hours
    position := p.position.getD u.position }

/-- The document transformation of `TasksService.update`'s single
`findByIdAndUpdate` call, applied to the stored document `u`: the `$set`
spreads the patch, refreshes `updated_at`, and conditionally sets
`completed_at` (condition read off the previously-found snapshot
`found`); the `$push` appends the single history entry. No `$slice`
accompanies the `$push`: this write path never evicts old entries. -/
def applyUpdateDoc (u found : Task) (p : UpdateTaskDto) (user : String) (now : Nat) : Task :=
  let u1 := setPatchFields u p
  let u2 := { u1 with
    updated_at := now
    completed_at :=
      if p.status = some TaskStatus.done ∧ found.completed_at = none then some now
      else u1.completed_at }
  { u2 with
    history := u2.history ++
      [⟨updateAction found p, user, now, computeChanges found p⟩] }

/-- The per-task effect of `update` in the (Mongo-guaranteed) situation
where the found snapshot is the stored document itself. -/
def applyUpdateTask (t : Task) (p : UpdateTaskDto) (user : String) (now : Nat) : Task :=
  applyUpdateDoc t t p user now

/-- `TasksService.update`. -/
def tasksUpdate (store : List Task) (id : Nat) (p : UpdateTaskDto)
    (team user : String) (now : Nat) : Except Err Task × List Task :=
  match findOneT store id team with
  | none => (.error .notFound, store)
  | some found =>
    match updateById store id (fun u => applyUpdateDoc u found p user now) with
    | (none, s) => (.error .notFound, s)
    | (some t', s) => (.ok t', s)

/-- The document transformation of `TasksService.remove`'s
`findByIdAndUpdate`: `$set` `deleted_at`/`updated_at`, `$push` the
`deleted` history entry (again with no `$slice`). -/
def applyRemove (u : Task) (user : String) (now : Nat) : Task :=
  { u with
    deleted_at := some now
    updated_at := now
    history := u.history ++
      [⟨"deleted", user, now, [⟨"deleted_at", .vNull, .vTime now⟩]⟩] }

/-- `TasksService.remove` (the result of the write is not inspected). -/
def tasksRemove (store : List Task) (id : Nat) (team user : String) (now : Nat) :
    Except Err Unit × List Task :=
  match findOneT store id team with
  | none => (.error .notFound, store)
  | some _ =>
    (.ok (), (updateById store id (fun u => applyRemove u user now)).2)

/-- The document transformation of task `restore`'s `findByIdAndUpdate`:
`$unset deleted_at`, `$set updated_at`, `$push` the `restored` entry
(old value read off the previously-found snapshot). -/
def applyRestore (u : Task) (oldDeleted : Option Nat) (user : String) (now : Nat) : Task :=
  { u with
    deleted_at := none
    updated_at := now
    history := u.history ++
      [⟨"restored", user, now, [⟨"deleted_at", Value.ofOptTime oldDeleted, .vNull⟩]⟩] }

/-- `TasksService.restore`: once a soft-deleted document of this team is
found, the restore is performed unconditionally. -/
def tasksRestore (store : List Task) (id : Nat) (team user : String) (now : Nat) :
    Except Err Task × List Task :=
  match findDeletedT store id team with
  | none => (.error .notFound, store)
  | some found =>
    match updateById store id (fun u => applyRestore u found.deleted_at user now) with
    | (none, s) => (.error .notFound, s)
    | (some t', s) => (.ok t', s)

/-- The document transformation of `updatePosition`'s `findByIdAndUpdate`:
only `position` and `updated_at` are set; there is no `$push`. -/
def applyPosition (u : Task) (pos : Rat) (now : Nat) : Task :=
  { u with position := pos, updated_at := now }

/-- `TasksService.updatePosition` (`reorder`). -/
def tasksUpdatePosition (store : List Task) (id : Nat) (pos : Rat)
    (team _user : String) (now : Nat) : Except Err Task × List Task :=
  match findOneT store id team with
  | none => (.error .notFound, store)
  | some _ =>
    match updateById store id (fun u => applyPosition u pos now) with
    | (none, s) => (.error .notFound, s)
    | (some t', s) => (.ok t', s)

/-- `TasksService.create` followed by the schema's `pre('save')` hook on a
new document: defaults `status = todo`, `priority = 3`,
`position = Date.now()`, `deleted_at = null`; the hook pushes the
`created` history entry and stamps `created_at`/`updated_at`. The hook's
`isNew` branch never touches `completed_at`. -/
def createTask (store : List Task) (newId : Nat) (dto : CreateTaskDto)
    (team user : String) (now : Nat) : Task × List Task :=
  let st := dto.status.getD .todo
  let t : Task :=
    { id := newId
      team_id := team
      title := dto.title
      description := dto.description
      status := st
      priority := dto.priority.getD 3
      project_id := dto.project_id
      assignee_id := dto.assignee_id
      created_by := user
      labels := dto.labels.getD []
      tags := dto.tags.getD []
      due_date := dto.due_date
      start_date := dto.start_date
      estimated_hours := dto.estimated_hours
      position := (now : Rat)
      completed_at := none
      history := [⟨"created", user, now, [⟨"status", .vNull, .vStatus st⟩]⟩]
      deleted_at := none
      created_at := now
      updated_at := now }
  (t, store ++ [t])

/-- `TaskSchema.methods.addHistoryEntry`: push, then keep only the last
100 entries (`history.slice(-100)`). -/
def addHistoryEntry (t : Task) (action user : String)
    (changes : List Change) (now : Nat) : Task :=
  let h := t.history ++ [⟨action, user, now, changes⟩]
  { t with history := if h.length > 100 then h.drop (h.length - 100) else h }

/-- The filter `findAll` builds: team scope, soft-delete filter unless
`include_deleted`, then `status` (or `status != done` unless
`include_completed`), then the remaining equality filters. -/
def taskMatches (q : TaskQueryDto) (team : String) (t : Task) : Bool :=
  t.team_id == team
  && (q.include_deleted || t.deleted_at.isNone)
  && (match q.status with
      | some s => t.status == s
      | none => q.include_completed || t.status != .done)
  && (match q.project_id with | some pj => t.project_id == some pj | none => true)
  && (match q.assignee_id with | some a => t.assignee_id == some a | none => true)
  && (match q.priority with | some pr => t.priority == pr | none => true)

/-- The non-search sort of `findAll`: `{status: 1, position: 1}` (Mongo
compares the status strings lexicographically). -/
def statusPositionLe (a b : Task) : Bool :=
  decide (a.status.str < b.status.str)
  || (a.status.str == b.status.str && decide (a.position ≤ b.position))

/-- `TasksService.findAll` (no text search). -/
def findAllT (store : List Task) (team : String) (q : TaskQueryDto) : List Task :=
  (store.filter (taskMatches q team)).mergeSort statusPositionLe

/-- The four Kanban columns. -/
structure Board where
  todo : List Task
  in_progress : List Task
  done : List Task
  blocked : List Task
deriving DecidableEq, Repr

/-- The filter of `getKanbanBoard`'s single `find`: the team's active (and
optionally project-scoped) tasks. -/
def boardBase (store : List Task) (team : String) (pj : Option Nat) : List Task :=
  store.filter fun t =>
    t.team_id == team && t.deleted_at.isNone
    && (match pj with | some x => t.project_id == some x | none => true)

/-- What Mongo guarantees for `.sort({position: 1})` with no secondary sort
key: the result is some reordering of the matched documents that is
sorted by `position`; the relative order of documents sharing a
`position` is unspecified. -/
def IsPositionSort (l sorted : List Task) : Prop :=
  sorted.Perm l ∧ sorted.Pairwise fun a b => a.position ≤ b.position

/-- The deterministic tail of `getKanbanBoard`: split the sorted result
into the four status columns with `filter`. -/
def boardOf (sorted : List Task) : Board :=
  { todo := sorted.filter (·.status == .todo)
    in_progress := sorted.filter (·.status == .in_progress)
    done := sorted.filter (·.status == .done)
    blocked := sorted.filter (·.status == .blocked) }

/-- `TasksService.getKanbanBoard` as a relation between the store and the
possible responses: one per admissible order of the store's
`.sort({position: 1})` result. -/
def boardResults (store : List Task) (team : String) (pj : Option Nat)
    (b : Board) : Prop :=
  ∃ sorted, IsPositionSort (boardBase store team pj) sorted ∧ b = boardOf sorted

/-- A project document (the fields the embedded operations consult). -/
structure Project where
  id : Nat
  name : String
  description : Option String
  team_id : String
  created_by : String
  deleted_at : Option Nat
  created_at : Nat
  updated_at : Nat
deriving DecidableEq, Repr

structure CreateProjectDto where
  name : String
  description : Option String := none
deriving DecidableEq, Repr

structure UpdateProjectDto where
  name : Option String := none
  description : Option String := none
deriving DecidableEq, Repr

/-- `findByIdAndUpdate` on the projects collection. -/
def updateByIdP (store : List Project) (id : Nat) (f : Project → Project) :
    Option Project × List Project :=
  match store with
  | [] => (none, [])
  | p :: rest =>
    if p.id = id then (some (f p), f p :: rest)
    else
      let r := updateByIdP rest id f
      (r.1, p :: r.2)

/-- The active-name-conflict probe
`findOne({name, team_id, deleted_at: null})` of `ProjectsService`. -/
def activeNamed (store : List Project) (name team : String) : Option Project :=
  store.find? fun p => p.name == name && p.team_id == team && p.deleted_at.isNone

/-- `ProjectsService.create`: reject with `Conflict` when an active project
of the team already has the name, else insert. -/
def projectsCreate (store : List Project) (newId : Nat) (dto : CreateProjectDto)
    (team user : String) (now : Nat) : Except Err Project × List Project :=
  match activeNamed store dto.name team with
  | some _ => (.error .conflict, store)
  | none =>
    let p : Project :=
      { id := newId, name := dto.name, description := dto.description
        team_id := team, created_by := user, deleted_at := none
        created_at := now, updated_at := now }
    (.ok p, store ++ [p])

/-- `ProjectsService.findOne` lookup (active, team-scoped). -/
def findOneP (store : List Project) (id : Nat) (team : String) : Option Project :=
  store.find? fun p => p.id == id && p.team_id == team && p.deleted_at.isNone

/-- `ProjectsService.update`: `NotFound` when no active document matches;
`Conflict` when renaming to a name held by another active project of the
team; else `$set` the patch and `updated_at`. -/
def projectsUpdate (store : List Project) (id : Nat) (dto : UpdateProjectDto)
    (team _user : String) (now : Nat) : Except Err Project × List Project :=
  match findOneP store id team with
  | none => (.error .notFound, store)
  | some project =>
    let rename :=
      match dto.name with
      | some n => n != "" && n != project.name &&
          (store.any fun p =>
            p.name == n && p.team_id == team && p.id != id && p.deleted_at.isNone)
      | none => false
    if rename then (.error .conflict, store)
    else
      match updateByIdP store id (fun p =>
        { p with
          name := dto.name.getD p.name
          description := match dto.description with
            | some d => some d | none => p.description
          updated_at := now }) with
      | (none, s) => (.error .notFound, s)
      | (some p', s) => (.ok p', s)

/-- `findOne({_id, team_id, deleted_at: {$ne: null}})` used by project `restore`. -/
def findDeletedP (store : List Project) (id : Nat) (team : String) : Option Project :=
  store.find? fun p => p.id == id && p.team_id == team && p.deleted_at.isSome

/-- `ProjectsService.restore`: find the soft-deleted document, re-check the
active-name uniqueness at restore time, then `$unset deleted_at`. -/
def projectsRestore (store : List Project) (id : Nat) (team _user : String)
    (now : Nat) : Except Err Project × List Project :=
  match findDeletedP store id team with
  | none => (.error .notFound, store)
  | some project =>
    match activeNamed store project.name team with
    | some _ => (.error .conflict, store)
    | none =>
      match updateByIdP store id (fun p =>
        { p with deleted_at := none, updated_at := now }) with
      | (none, s) => (.error .notFound, s)
      | (some p', s) => (.ok p', s)

/-- Iterated `update` calls against one task (the per-document effect of a
sequence of `TasksService.update` requests on that task). -/
def runUpdates (t : Task) : List (UpdateTaskDto × String × Nat) → Task
  | [] => t
  | (p, u, n) :: rest => runUpdates (applyUpdateTask t p u n) rest

/-- The statuses the task holds after each update of the sequence. -/
def statusTrace (t : Task) : List (UpdateTaskDto × String × Nat) → List TaskStatus
  | [] => []
  | (p, u, n) :: rest =>
    (applyUpdateTask t p u n).status :: statusTrace (applyUpdateTask t p u n) rest

/-- A concrete task for the concrete evaluations below. -/
def mkT (id : Nat) (team : String) (st : TaskStatus) (pos : Rat)
    (hist : List HistoryEntry) : Task :=
  { id := id, team_id := team, title := "A", description := none, status := st,
    priority := 3, project_id := none, assignee_id := none, created_by := "u1",
    labels := [], tags := [], due_date := none, start_date := none,
    estimated_hours := none, position := pos, completed_at := none,
    history := hist, deleted_at := none, created_at := 0, updated_at := 0 }

/-- A concrete 100-entry history (entries pairwise distinct). -/
def h100 : List HistoryEntry :=
  (List.range 100).map fun i => ⟨"updated", "u1", i, []⟩

/-- A concrete active project named "X" in team "T". -/
def pA : Project :=
  { id := 1, name := "X", description := none, team_id := "T",
    created_by := "u", deleted_at := none, created_at := 0, updated_at := 0 }

/-- A concrete soft-deleted project, also named "X" in team "T". -/
def pD : Project :=
  { id := 2, name := "X", description := none, team_id := "T",
    created_by := "u", deleted_at := some 5, created_at := 0, updated_at := 0 }

theorem findOneT_spec {store : List Task} {id : Nat} {team : String} {t : Task}
    (h : findOneT store id team = some t) :
    t ∈ store ∧ t.id = id ∧ t.team_id = team ∧ t.deleted_at = none := by
  have hm := List.mem_of_find?_eq_some h
  have hp := List.find?_some h
  simp only [Bool.and_eq_true, beq_iff_eq, Option.isNone_iff_eq_none] at hp
  exact ⟨hm, hp.1.1, hp.1.2, hp.2⟩

theorem findDeletedT_spec {store : List Task} {id : Nat} {team : String} {t : Task}
    (h : findDeletedT store id team = some t) :
    t ∈ store ∧ t.id = id ∧ t.team_id = team ∧ t.deleted_at ≠ none := by
  have hm := List.mem_of_find?_eq_some h
  have hp := List.find?_some h
  simp only [Bool.and_eq_true, beq_iff_eq, Option.isSome_iff_ne_none] at hp
  exact ⟨hm, hp.1.1, hp.1.2, hp.2⟩

theorem task_id_inj {store : List Task} (hnd : (store.map Task.id).Nodup)
    {u v : Task} (hu : u ∈ store) (hv : v ∈ store) (h : u.id = v.id) : u = v :=
  List.inj_on_of_nodup_map hnd hu hv h

theorem findOneT_of_nodup {store : List Task} {team : String} {t : Task}
    (hnd : (store.map Task.id).Nodup) (hmem : t ∈ store)
    (hteam : t.team_id = team) (hact : t.deleted_at = none) :
    findOneT store t.id team = some t := by
  have hs : (store.find? fun u =>
      u.id == t.id && u.team_id == team && u.deleted_at.isNone).isSome := by
    refine List.find?_isSome.mpr ⟨t, hmem, ?_⟩
    simp [hteam, hact]
  obtain ⟨u, hu⟩ := Option.isSome_iff_exists.mp hs
  have hspec := findOneT_spec (t := u) hu
  have : u = t := task_id_inj hnd hspec.1 hmem hspec.2.1
  rw [findOneT, hu, this]

theorem findDeletedT_of_nodup {store : List Task} {team : String} {t : Task}
    (hnd : (store.map Task.id).Nodup) (hmem : t ∈ store)
    (hteam : t.team_id = team) (hdel : t.deleted_at ≠ none) :
    findDeletedT store t.id team = some t := by
  have hs : (store.find? fun u =>
      u.id == t.id && u.team_id == team && u.deleted_at.isSome).isSome := by
    refine List.find?_isSome.mpr ⟨t, hmem, ?_⟩
    simp [hteam, Option.isSome_iff_ne_none, hdel]
  obtain ⟨u, hu⟩ := Option.isSome_iff_exists.mp hs
  have hspec := findDeletedT_spec (t := u) hu
  have : u = t := task_id_inj hnd hspec.1 hmem hspec.2.1
  rw [findDeletedT, hu, this]

theorem updateById_none {store : List Task} {id : Nat} {f : Task → Task}
    (h : (updateById store id f).1 = none) : (updateById store id f).2 = store := by
  induction store with
  | nil => rfl
  | cons t rest ih =>
    by_cases ht : t.id = id
    · simp [updateById, ht] at h
    · simp only [updateById, ht, if_false] at h ⊢
      rw [ih h]

theorem updateById_eq {store : List Task} {id : Nat} (f : Task → Task) {t : Task}
    (hnd : (store.map Task.id).Nodup) (ht : t ∈ store) (hid : t.id = id) :
    updateById store id f =
      (some (f t), store.map fun u => if u.id = id then f u else u) := by
  induction store with
  | nil => cases ht
  | cons a rest ih =>
    rw [List.map_cons, List.nodup_cons] at hnd
    rcases List.mem_cons.mp ht with rfl | hmem
    · have hrest : ∀ u ∈ rest, u.id ≠ id := by
        intro u hu hne
        have he : u.id = t.id := hne.trans hid.symm
        exact hnd.1 (he ▸ List.mem_map_of_mem Task.id hu)
      have hmap : rest.map (fun u => if u.id = id then f u else u) = rest := by
        rw [List.map_congr_left (fun u hu => if_neg (hrest u hu))]
        simp
      simp [updateById, hid, hmap]
    · have hane : a.id ≠ id := by
        intro hae
        have he : t.id = a.id := hid.trans hae.symm
        exact hnd.1 (he ▸ List.mem_map_of_mem Task.id hmem)
      simp only [updateById, hane, if_false, if_neg hane, List.map_cons,
        ih hnd.2 hmem]

theorem updateByIdP_none {store : List Project} {id : Nat} {f : Project → Project}
    (h : (updateByIdP store id f).1 = none) : (updateByIdP store id f).2 = store := by
  induction store with
  | nil => rfl
  | cons t rest ih =>
    by_cases ht : t.id = id
    · simp [updateByIdP, ht] at h
    · simp only [updateByIdP, ht, if_false] at h ⊢
      rw [ih h]

theorem project_id_inj {store : List Project} (hnd : (store.map Project.id).Nodup)
    {u v : Project} (hu : u ∈ store) (hv : v ∈ store) (h : u.id = v.id) : u = v :=
  List.inj_on_of_nodup_map hnd hu hv h

theorem updateByIdP_eq {store : List Project} {id : Nat} (f : Project → Project)
    {t : Project} (hnd : (store.map Project.id).Nodup) (ht : t ∈ store) (hid : t.id = id) :
    updateByIdP store id f =
      (some (f t), store.map fun u => if u.id = id then f u else u) := by
  induction store with
  | nil => cases ht
  | cons a rest ih =>
    rw [List.map_cons, List.nodup_cons] at hnd
    rcases List.mem_cons.mp ht with rfl | hmem
    · have hrest : ∀ u ∈ rest, u.id ≠ id := by
        intro u hu hne
        have he : u.id = t.id := hne.trans hid.symm
        exact hnd.1 (he ▸ List.mem_map_of_mem Project.id hu)
      have hmap : rest.map (fun u => if u.id = id then f u else u) = rest := by
        rw [List.map_congr_left (fun u hu => if_neg (hrest u hu))]
        simp
      simp [updateByIdP, hid, hmap]
    · have hane : a.id ≠ id := by
        intro hae
        have he : t.id = a.id := hid.trans hae.symm
        exact hnd.1 (he ▸ List.mem_map_of_mem Project.id hmem)
      simp only [updateByIdP, hane, if_false, if_neg hane, List.map_cons,
        ih hnd.2 hmem]

theorem mem_findAllT {store : List Task} {team : String} {q : TaskQueryDto} {u : Task} :
    u ∈ findAllT store team q ↔ u ∈ store ∧ taskMatches q team u = true := by
  rw [findAllT, List.mem_mergeSort, List.mem_filter]

theorem mem_map_field_diffChange {α : Type} {o : Option α} {differs : α → Bool}
    {field : String} {oldV : Value} {newV : α → Value} {f : String} :
    f ∈ (diffChange o differs field oldV newV).map Change.field ↔
      (f = field ∧ ∃ v, o = some v ∧ differs v = true) := by
  cases o with
  | none => simp [diffChange]
  | some v =>
    by_cases h : differs v <;> simp [diffChange, h]

theorem findOneP_spec {store : List Project} {id : Nat} {team : String} {p : Project}
    (h : findOneP store id team = some p) :
    p ∈ store ∧ p.id = id ∧ p.team_id = team ∧ p.deleted_at = none := by
  have hm := List.mem_of_find?_eq_some h
  have hp := List.find?_some h
  simp only [Bool.and_eq_true, beq_iff_eq, Option.isNone_iff_eq_none] at hp
  exact ⟨hm, hp.1.1, hp.1.2, hp.2⟩

theorem findDeletedP_spec {store : List Project} {id : Nat} {team : String} {p : Project}
    (h : findDeletedP store id team = some p) :
    p ∈ store ∧ p.id = id ∧ p.team_id = team ∧ p.deleted_at ≠ none := by
  have hm := List.mem_of_find?_eq_some h
  have hp := List.find?_some h
  simp only [Bool.and_eq_true, beq_iff_eq, Option.isSome_iff_ne_none] at hp
  exact ⟨hm, hp.1.1, hp.1.2, hp.2⟩

theorem findOneP_of_nodup {store : List Project} {team : String} {p : Project}
    (hnd : (store.map Project.id).Nodup) (hmem : p ∈ store)
    (hteam : p.team_id = team) (hact : p.deleted_at = none) :
    findOneP store p.id team = some p := by
  have hs : (store.find? fun u =>
      u.id == p.id && u.team_id == team && u.deleted_at.isNone).isSome := by
    refine List.find?_isSome.mpr ⟨p, hmem, ?_⟩
    simp [hteam, hact]
  obtain ⟨u, hu⟩ := Option.isSome_iff_exists.mp hs
  have hspec := findOneP_spec (p := u) hu
  have : u = p := project_id_inj hnd hspec.1 hmem hspec.2.1
  rw [findOneP, hu, this]

theorem findDeletedP_of_nodup {store : List Project} {team : String} {p : Project}
    (hnd : (store.map Project.id).Nodup) (hmem : p ∈ store)
    (hteam : p.team_id = team) (hdel : p.deleted_at ≠ none) :
    findDeletedP store p.id team = some p := by
  have hs : (store.find? fun u =>
      u.id == p.id && u.team_id == team && u.deleted_at.isSome).isSome := by
    refine List.find?_isSome.mpr ⟨p, hmem, ?_⟩
    simp [hteam, Option.isSome_iff_ne_none, hdel]
  obtain ⟨u, hu⟩ := Option.isSome_iff_exists.mp hs
  have hspec := findDeletedP_spec (p := u) hu
  have : u = p := project_id_inj hnd hspec.1 hmem hspec.2.1
  rw [findDeletedP, hu, this]

theorem updateById_isSome {store : List Task} {id : Nat} {f : Task → Task}
    (h : ∃ u ∈ store, u.id = id) : (updateById store id f).1.isSome := by
  induction store with
  | nil => simp at h
  | cons a rest ih =>
    by_cases ha : a.id = id
    · simp [updateById, ha]
    · obtain ⟨u, hu, huid⟩ := h
      rcases List.mem_cons.mp hu with rfl | hmem
      · exact absurd huid ha
      · simp only [updateById, ha, if_false]
        exact ih ⟨u, hmem, huid⟩

theorem map_ids_nodup {store : List Task} (g : Task → Task)
    (hg : ∀ u, (g u).id = u.id) (hnd : (store.map Task.id).Nodup) :
    ((store.map g).map Task.id).Nodup := by
  rw [List.map_map]
  have he : (Task.id ∘ g) = Task.id := funext hg
  rw [he]
  exact hnd

theorem map_ids_nodupP {store : List Project} (g : Project → Project)
    (hg : ∀ u, (g u).id = u.id) (hnd : (store.map Project.id).Nodup) :
    ((store.map g).map Project.id).Nodup := by
  rw [List.map_map]
  have he : (Project.id ∘ g) = Project.id := funext hg
  rw [he]
  exact hnd

theorem applyRemove_id (u : Task) (user : String) (n : Nat) :
    (applyRemove u user n).id = u.id := rfl

theorem applyRemove_fields (u : Task) (user : String) (n : Nat) :
    (applyRemove u user n).team_id = u.team_id
    ∧ (applyRemove u user n).status = u.status
    ∧ (applyRemove u user n).deleted_at = some n
    ∧ (applyRemove u user n).position = u.position :=
  ⟨rfl, rfl, rfl, rfl⟩

theorem applyRestore_id (u : Task) (o : Option Nat) (user : String) (n : Nat) :
    (applyRestore u o user n).id = u.id := rfl

theorem applyRestore_fields (u : Task) (o : Option Nat) (user : String) (n : Nat) :
    (applyRestore u o user n).team_id = u.team_id
    ∧ (applyRestore u o user n).status = u.status
    ∧ (applyRestore u o user n).deleted_at = none :=
  ⟨rfl, rfl, rfl⟩

theorem applyUpdateTask_status (t : Task) (p : UpdateTaskDto) (u : String) (n : Nat) :
    (applyUpdateTask t p u n).status = p.status.getD t.status := rfl

theorem applyUpdateTask_completed_at (t : Task) (p : UpdateTaskDto) (u : String) (n : Nat) :
    (applyUpdateTask t p u n).completed_at =
      if p.status = some TaskStatus.done ∧ t.completed_at = none then some n
      else t.completed_at := rfl

theorem applyUpdateDoc_history (u t : Task) (p : UpdateTaskDto) (user : String) (n : Nat) :
    (applyUpdateDoc u t p user n).history
      = u.history ++ [⟨updateAction t p, user, n, computeChanges t p⟩] := rfl

theorem runUpdates_completed_some (ps : List (UpdateTaskDto × String × Nat)) :
    ∀ (t : Task) (c : Nat), t.completed_at = some c →
      (runUpdates t ps).completed_at = some c := by
  induction ps with
  | nil => intro t c h; exact h
  | cons hd tl ih =>
    intro t c h
    obtain ⟨p, u, n⟩ := hd
    refine ih _ c ?_
    rw [applyUpdateTask_completed_at, h]
    simp

theorem runUpdates_completed_iff (ps : List (UpdateTaskDto × String × Nat)) :
    ∀ t : Task, t.completed_at = none → t.status ≠ TaskStatus.done →
      ((runUpdates t ps).completed_at ≠ none ↔ TaskStatus.done ∈ statusTrace t ps) := by
  induction ps with
  | nil =>
    intro t h1 _
    simp [runUpdates, statusTrace, h1]
  | cons hd tl ih =>
    intro t h1 h2
    obtain ⟨p, u, n⟩ := hd
    by_cases hs : p.status = some TaskStatus.done
    · have hc : (applyUpdateTask t p u n).completed_at = some n := by
        rw [applyUpdateTask_completed_at]
        simp [hs, h1]
      have hst : (applyUpdateTask t p u n).status = TaskStatus.done := by
        rw [applyUpdateTask_status, hs]
        rfl
      constructor
      · intro _
        simp [statusTrace, hst]
      · intro _
        simp only [runUpdates]
        rw [runUpdates_completed_some tl _ n hc]
        simp
    · have hc : (applyUpdateTask t p u n).completed_at = none := by
        rw [applyUpdateTask_completed_at]
        simp [hs, h1]
      have hst : (applyUpdateTask t p u n).status ≠ TaskStatus.done := by
        rw [applyUpdateTask_status]
        cases hps : p.status with
        | none => simpa using h2
        | some s =>
          intro he
          simp only [Option.getD_some] at he
          exact hs (by rw [hps, he])
      have hiff := ih (applyUpdateTask t p u n) hc hst
      simp only [runUpdates, statusTrace, List.mem_cons]
      rw [hiff]
      constructor
      · exact Or.inr
      · rintro (h | h)
        · exact absurd h.symm hst
        · exact h

/-- Claim C1 (code bug). The schema helper `addHistoryEntry` does enforce
the cap (appending a 101st entry leaves exactly the 100 most recent
entries in order, `slice(-100)`), but the service write paths use a bare
`$push` with no `$slice`, bypassing both the helper and the schema
validator: `update` on a task whose history already holds 100 entries
leaves 101 entries in the store. -/
theorem update_bypasses_history_cap :
    ((tasksUpdate [mkT 1 "T" .todo 1 h100] 1 { title := some "B" } "T" "u2" 500).2.map
      fun t => t.history.length) = [101]
    ∧ (addHistoryEntry (mkT 1 "T" .todo 1 h100) "updated" "u2" [] 500).history.length = 100
    ∧ (addHistoryEntry (mkT 1 "T" .todo 1 h100) "updated" "u2" [] 500).history
        = (h100 ++ [({ action := "updated", user_id := "u2", timestamp := 500,
                       changes := [] } : HistoryEntry)]).drop 1 := by
  refine ⟨?_, ?_, ?_⟩ <;> rfl

/-- Claim C3 counterexample: a task created directly with status `done`
(`CreateTaskDto.status` admits any enum value) has held status `done`,
yet its `completed_at` is null — the schema `pre('save')` hook sets
`completed_at` only in its not-new branch, and `create` is the only
`save()` caller. -/
theorem create_done_completed_at_null :
    (createTask [] 1 { title := "A", status := some .done } "T" "u1" 7).1.status
      = TaskStatus.done
    ∧ (createTask [] 1 { title := "A", status := some .done } "T" "u1" 7).1.completed_at
      = none :=
  ⟨rfl, rfl⟩

/-- Claim C3 (amended): for a task whose `completed_at` is unset and whose
status is not `done` (as every task created with a non-`done` status
is), over any sequence of `update` calls: `completed_at` is non-null iff
the task has, after some update of the sequence, held status `done`;
and once `completed_at` is set, no further update changes or clears it
(so a repeated transition into `done` leaves it unchanged). -/
theorem completed_at_iff_ever_done (t : Task) (ps : List (UpdateTaskDto × String × Nat))
    (h1 : t.completed_at = none) (h2 : t.status ≠ TaskStatus.done) :
    ((runUpdates t ps).completed_at ≠ none ↔ TaskStatus.done ∈ statusTrace t ps)
    ∧ ∀ (u : Task) (p : UpdateTaskDto) (user : String) (now c : Nat),
        u.completed_at = some c → (applyUpdateTask u p user now).completed_at = some c := by
  refine ⟨runUpdates_completed_iff ps t h1 h2, ?_⟩
  intro u p user now c hc
  rw [applyUpdateTask_completed_at, hc]
  simp

/-- Concrete instance of `completed_at_iff_ever_done`: a fresh `todo` task
updated to `done` and then to `blocked`. -/
theorem completed_at_iff_ever_done_witness :
    (mkT 1 "T" .todo 1 []).completed_at = none
    ∧ (mkT 1 "T" .todo 1 []).status ≠ TaskStatus.done
    ∧ ((runUpdates (mkT 1 "T" .todo 1 [])
          [({ status := some .done }, "u2", 5), ({ status := some .blocked }, "u2", 6)]).completed_at ≠ none
        ↔ TaskStatus.done ∈ statusTrace (mkT 1 "T" .todo 1 [])
          [({ status := some .done }, "u2", 5), ({ status := some .blocked }, "u2", 6)]) :=
  ⟨rfl, by decide,
    (completed_at_iff_ever_done (mkT 1 "T" .todo 1 [])
      [({ status := some .done }, "u2", 5), ({ status := some .blocked }, "u2", 6)]
      rfl (by decide)).1⟩

/-- Claim C4 counterexample: `updatePosition` (reorder) changes the tracked
field `position` (1 → 5) yet appends zero history entries — its
`findByIdAndUpdate` carries no `$push`. -/
theorem reorder_appends_no_history :
    ((tasksUpdatePosition [mkT 1 "T" .todo 1 []] 1 5 "T" "u2" 9).2.map
      fun t => (t.position, t.history.length)) = [(5, 0)]
    ∧ (mkT 1 "T" .todo 1 []).position = 1
    ∧ (mkT 1 "T" .todo 1 []).history.length = 0 :=
  ⟨rfl, rfl, rfl⟩

/-- Claim C4 (amended): `update`, `remove` and `restore` each append
exactly one history entry per mutation — for `update` its `changes`
list enumerates every changed field in that one entry (shown here for
the primitive patch keys: a field name appears in the entry's `changes`
iff the patch holds a differing value for it), and `remove`/`restore`
record the `deleted_at` change; but `updatePosition` (reorder) appends
no history entry at all. -/
theorem one_entry_per_mutation :
    (∀ (t : Task) (p : UpdateTaskDto) (user : String) (now : Nat),
      (applyUpdateTask t p user now).history
          = t.history ++ [⟨updateAction t p, user, now, computeChanges t p⟩]
      ∧ (("title" ∈ (computeChanges t p).map Change.field) ↔
          ∃ v, p.title = some v ∧ v ≠ t.title)
      ∧ (("status" ∈ (computeChanges t p).map Change.field) ↔
          ∃ v, p.status = some v ∧ v ≠ t.status)
      ∧ (("priority" ∈ (computeChanges t p).map Change.field) ↔
          ∃ v, p.priority = some v ∧ v ≠ t.priority)
      ∧ (("assignee_id" ∈ (computeChanges t p).map Change.field) ↔
          ∃ v, p.assignee_id = some v ∧ some v ≠ t.assignee_id)
      ∧ (("position" ∈ (computeChanges t p).map Change.field) ↔
          ∃ v, p.position = some v ∧ v ≠ t.position))
    ∧ (∀ (t : Task) (user : String) (now : Nat),
        (applyRemove t user now).history
          = t.history ++ [⟨"deleted", user, now, [⟨"deleted_at", .vNull, .vTime now⟩]⟩])
    ∧ (∀ (t : Task) (o : Option Nat) (user : String) (now : Nat),
        (applyRestore t o user now).history
          = t.history ++ [⟨"restored", user, now, [⟨"deleted_at", Value.ofOptTime o, .vNull⟩]⟩])
    ∧ (∀ (t : Task) (pos : Rat) (now : Nat),
        (applyPosition t pos now).history = t.history) := by
  refine ⟨?_, fun t user now => rfl, fun t o user now => rfl, fun t pos now => rfl⟩
  intro t p user now
  refine ⟨rfl, ?_, ?_, ?_, ?_, ?_⟩ <;>
    · simp only [computeChanges, List.map_append, List.mem_append,
        mem_map_field_diffChange]
      simp [bne_iff_ne]

/-- Claim C8: when no active document of the team carries the id (unknown
id, foreign team, or soft-deleted), `findOne` fails with `NotFound`, and
`reorder` (`updatePosition`) also fails with `NotFound` leaving the
store untouched — it never silently no-ops. -/
theorem missing_or_foreign_id_notfound (store : List Task) (id : Nat) (team : String)
    (h : ∀ u ∈ store, ¬(u.id = id ∧ u.team_id = team ∧ u.deleted_at = none)) :
    tasksFindOne store id team = .error .notFound
    ∧ ∀ (pos : Rat) (user : String) (now : Nat),
        tasksUpdatePosition store id pos team user now = (.error .notFound, store) := by
  have hnone : findOneT store id team = none := by
    refine List.find?_eq_none.mpr ?_
    intro u hu
    simpa [Option.isNone_iff_eq_none, and_assoc] using h u hu
  constructor
  · rw [tasksFindOne, hnone]
  · intro pos user now
    rw [tasksUpdatePosition, hnone]

/-- Concrete instance of `missing_or_foreign_id_notfound`: a task created
under team "B" is `NotFound` for team "A". -/
theorem missing_or_foreign_id_notfound_witness :
    tasksFindOne [mkT 1 "B" .todo 1 []] 1 "A" = .error .notFound :=
  (missing_or_foreign_id_notfound [mkT 1 "B" .todo 1 []] 1 "A" (by decide)).1

/-- Claim C10: with a default query (no status filter, `include_completed`
unset), `findAll` excludes every (even active, same-team) task whose
status is `done`; such a task is returned when `include_completed` is
true or an explicit `status=done` filter is supplied. -/
theorem findAll_default_excludes_done (store : List Task) (t : Task) (team : String)
    (hmem : t ∈ store) (hteam : t.team_id = team) (hact : t.deleted_at = none)
    (hdone : t.status = TaskStatus.done) :
    t ∉ findAllT store team {}
    ∧ t ∈ findAllT store team { include_completed := true }
    ∧ t ∈ findAllT store team { status := some .done } := by
  refine ⟨?_, ?_, ?_⟩
  · intro hin
    have hm := (mem_findAllT.mp hin).2
    simp [taskMatches, hdone] at hm
  · exact mem_findAllT.mpr ⟨hmem, by simp [taskMatches, hteam, hact, hdone]⟩
  · exact mem_findAllT.mpr ⟨hmem, by simp [taskMatches, hteam, hact, hdone]⟩

/-- Claim C2: an update patch that simultaneously changes `status`,
`priority` and `assignee_id` appends exactly one history entry, its
`changes` array has exactly three elements, and its action label is
`status_changed` (status takes precedence over the assignee change). -/
theorem update_three_field_patch (store : List Task) (t : Task) (team user : String)
    (now : Nat) (s : TaskStatus) (pr : Int) (a : String)
    (hnd : (store.map Task.id).Nodup) (hmem : t ∈ store)
    (hteam : t.team_id = team) (hact : t.deleted_at = none)
    (hs : s ≠ t.status) (hp : pr ≠ t.priority) (ha : some a ≠ t.assignee_id) :
    (tasksUpdate store t.id
        { status := some s, priority := some pr, assignee_id := some a } team user now).1
      = .ok (applyUpdateDoc t t
          { status := some s, priority := some pr, assignee_id := some a } user now)
    ∧ (applyUpdateDoc t t
          { status := some s, priority := some pr, assignee_id := some a } user now).history
      = t.history ++ [⟨"status_changed", user, now,
          computeChanges t { status := some s, priority := some pr, assignee_id := some a }⟩]
    ∧ (computeChanges t
        { status := some s, priority := some pr, assignee_id := some a }).length = 3 := by
  have hfind := findOneT_of_nodup hnd hmem hteam hact
  refine ⟨?_, ?_, ?_⟩
  · simp only [tasksUpdate, hfind,
      updateById_eq (fun u => applyUpdateDoc u t
        { status := some s, priority := some pr, assignee_id := some a } user now)
        hnd hmem rfl]
  · rw [applyUpdateDoc_history]
    have hact2 : updateAction t
        { status := some s, priority := some pr, assignee_id := some a }
          = "status_changed" := by
      simp [updateAction, statusChangedB, bne_iff_ne, hs]
    rw [hact2]
  · simp [computeChanges, diffChange, bne_iff_ne, hs, hp, ha]

/-- Concrete instance of `update_three_field_patch`: a fresh `todo` task
patched to `{status: in_progress, priority: 1, assignee: "u9"}`. -/
theorem update_three_field_patch_witness :
    (tasksUpdate [mkT 1 "T" .todo 1 []] 1
        { status := some .in_progress, priority := some 1, assignee_id := some "u9" }
        "T" "u2" 9).1
      = .ok (applyUpdateDoc (mkT 1 "T" .todo 1 []) (mkT 1 "T" .todo 1 [])
          { status := some .in_progress, priority := some 1, assignee_id := some "u9" } "u2" 9)
    ∧ (applyUpdateDoc (mkT 1 "T" .todo 1 []) (mkT 1 "T" .todo 1 [])
          { status := some .in_progress, priority := some 1, assignee_id := some "u9" } "u2" 9).history
      = (mkT 1 "T" .todo 1 []).history ++ [⟨"status_changed", "u2", 9,
          computeChanges (mkT 1 "T" .todo 1 [])
            { status := some .in_progress, priority := some 1, assignee_id := some "u9" }⟩]
    ∧ (computeChanges (mkT 1 "T" .todo 1 [])
        { status := some .in_progress, priority := some 1, assignee_id := some "u9" }).length = 3 :=
  update_three_field_patch [mkT 1 "T" .todo 1 []] (mkT 1 "T" .todo 1 []) "T" "u2" 9
    .in_progress 1 "u9" (by decide) (List.mem_singleton.mpr rfl) rfl rfl
    (by decide) (by decide) (by decide)

/-- Claim C5 counterexample: for an active task whose status is `done`,
`findMany` with `includeDeleted=true` still excludes it after `remove`
(the default `include_completed` filter `status != done` also applies),
contradicting the claim's second conjunct. -/
theorem removed_done_task_not_listed :
    ((tasksRemove [mkT 1 "T" .done 1 []] 1 "T" "u2" 9).2.map Task.deleted_at = [some 9])
    ∧ findAllT (tasksRemove [mkT 1 "T" .done 1 []] 1 "T" "u2" 9).2 "T"
        { include_deleted := true } = [] := by
  constructor
  · rfl
  · rw [findAllT, show ((tasksRemove [mkT 1 "T" .done 1 []] 1 "T" "u2" 9).2.filter
        (taskMatches { include_deleted := true } "T")) = ([] : List Task) from rfl]
    simp

/-- Claim C5 (amended): for an active task whose status is not `done`,
after `remove` the task's id is absent from default `findAll`, present
under `includeDeleted=true`, and after `restore` present again under
default filters. (A task with status `done` stays hidden from every
`findAll` that neither sets `include_completed` nor a status filter.) -/
theorem soft_delete_exclusion (store : List Task) (t : Task) (team user : String)
    (n1 n2 : Nat) (hnd : (store.map Task.id).Nodup) (hmem : t ∈ store)
    (hteam : t.team_id = team) (hact : t.deleted_at = none)
    (hst : t.status ≠ TaskStatus.done) :
    (tasksRemove store t.id team user n1).1 = .ok ()
    ∧ (∀ u ∈ findAllT (tasksRemove store t.id team user n1).2 team {}, u.id ≠ t.id)
    ∧ applyRemove t user n1
        ∈ findAllT (tasksRemove store t.id team user n1).2 team { include_deleted := true }
    ∧ (tasksRestore (tasksRemove store t.id team user n1).2 t.id team user n2).1
        = .ok (applyRestore (applyRemove t user n1) (some n1) user n2)
    ∧ applyRestore (applyRemove t user n1) (some n1) user n2
        ∈ findAllT (tasksRestore (tasksRemove store t.id team user n1).2 t.id team user n2).2
            team {} := by
  have hfind := findOneT_of_nodup hnd hmem hteam hact
  have hrem : tasksRemove store t.id team user n1
      = (.ok (), store.map fun u => if u.id = t.id then applyRemove u user n1 else u) := by
    simp only [tasksRemove, hfind,
      updateById_eq (fun u => applyRemove u user n1) hnd hmem rfl]
  have hrem1 : (tasksRemove store t.id team user n1).1 = .ok () := by rw [hrem]
  have hrem2 : (tasksRemove store t.id team user n1).2
      = store.map fun u => if u.id = t.id then applyRemove u user n1 else u := by rw [hrem]
  have hgid : ∀ u : Task,
      ((fun u => if u.id = t.id then applyRemove u user n1 else u) u).id = u.id := by
    intro u
    by_cases h : u.id = t.id <;> simp [h, applyRemove_id]
  have hnd1 : (((store.map fun u => if u.id = t.id then applyRemove u user n1 else u)).map
      Task.id).Nodup := map_ids_nodup _ hgid hnd
  have hg1t : (fun u => if u.id = t.id then applyRemove u user n1 else u) t
      = applyRemove t user n1 := by simp
  have hmem1 : applyRemove t user n1
      ∈ store.map fun u => if u.id = t.id then applyRemove u user n1 else u :=
    hg1t ▸ List.mem_map_of_mem _ hmem
  have hdel : (applyRemove t user n1).deleted_at = some n1 := rfl
  have hfind2 : findDeletedT
      (store.map fun u => if u.id = t.id then applyRemove u user n1 else u) t.id team
        = some (applyRemove t user n1) := by
    have h2 : findDeletedT
        (store.map fun u => if u.id = t.id then applyRemove u user n1 else u)
        (applyRemove t user n1).id team = some (applyRemove t user n1) :=
      findDeletedT_of_nodup hnd1 hmem1 ((applyRemove_fields t user n1).1.trans hteam)
        (by rw [hdel]; exact Option.some_ne_none n1)
    rwa [applyRemove_id] at h2
  have hres : tasksRestore
      (store.map fun u => if u.id = t.id then applyRemove u user n1 else u) t.id team user n2
      = (.ok (applyRestore (applyRemove t user n1) (some n1) user n2),
         (store.map fun u => if u.id = t.id then applyRemove u user n1 else u).map
           fun u => if u.id = t.id then applyRestore u (some n1) user n2 else u) := by
    simp only [tasksRestore, hfind2, hdel,
      updateById_eq (fun u => applyRestore u (some n1) user n2) hnd1 hmem1
        (applyRemove_id t user n1)]
  have hres1 : (tasksRestore
      (store.map fun u => if u.id = t.id then applyRemove u user n1 else u)
        t.id team user n2).1
      = .ok (applyRestore (applyRemove t user n1) (some n1) user n2) := by rw [hres]
  have hres2 : (tasksRestore
      (store.map fun u => if u.id = t.id then applyRemove u user n1 else u)
        t.id team user n2).2
      = (store.map fun u => if u.id = t.id then applyRemove u user n1 else u).map
          fun u => if u.id = t.id then applyRestore u (some n1) user n2 else u := by rw [hres]
  refine ⟨hrem1, ?_, ?_, ?_, ?_⟩
  · intro u hu hueq
    rw [hrem2] at hu
    obtain ⟨huin, humatch⟩ := mem_findAllT.mp hu
    obtain ⟨w, hw, hwu⟩ := List.mem_map.mp huin
    have h3 : u.id = w.id := by
      rw [← hwu]
      exact hgid w
    have hwid : w.id = t.id := h3 ▸ hueq
    have hwt : w = t := task_id_inj hnd hw hmem hwid
    rw [hwt] at hwu
    have hut : u = applyRemove t user n1 := by rw [← hwu]; exact hg1t
    rw [hut] at humatch
    simp [taskMatches, applyRemove] at humatch
  · rw [hrem2]
    refine mem_findAllT.mpr ⟨hmem1, ?_⟩
    simp [taskMatches, applyRemove, hteam, bne_iff_ne, hst]
  · rw [hrem2, hres1]
  · rw [hrem2, hres2]
    refine mem_findAllT.mpr ⟨?_, ?_⟩
    · have hg2 : (fun u => if u.id = t.id then
            applyRestore u (some n1) user n2 else u) (applyRemove t user n1)
          = applyRestore (applyRemove t user n1) (some n1) user n2 := by
        show (if (applyRemove t user n1).id = t.id then
            applyRestore (applyRemove t user n1) (some n1) user n2
          else applyRemove t user n1)
          = applyRestore (applyRemove t user n1) (some n1) user n2
        rw [if_pos (applyRemove_id t user n1)]
      exact hg2 ▸ List.mem_map_of_mem _ hmem1
    · simp [taskMatches, applyRestore, applyRemove, hteam, bne_iff_ne, hst]

/-- Concrete instance of `soft_delete_exclusion`: a singleton store holding
one active `todo` task of team "T". -/
theorem soft_delete_exclusion_witness :
    (tasksRemove [mkT 1 "T" .todo 1 []] (mkT 1 "T" .todo 1 []).id "T" "u2" 9).1 = .ok ()
    ∧ applyRemove (mkT 1 "T" .todo 1 []) "u2" 9
        ∈ findAllT (tasksRemove [mkT 1 "T" .todo 1 []] (mkT 1 "T" .todo 1 []).id "T" "u2" 9).2
            "T" { include_deleted := true } :=
  ⟨(soft_delete_exclusion [mkT 1 "T" .todo 1 []] (mkT 1 "T" .todo 1 []) "T" "u2" 9 10
      (by decide) (List.mem_singleton.mpr rfl) rfl rfl (by decide)).1,
   (soft_delete_exclusion [mkT 1 "T" .todo 1 []] (mkT 1 "T" .todo 1 []) "T" "u2" 9 10
      (by decide) (List.mem_singleton.mpr rfl) rfl rfl (by decide)).2.2.1⟩

/-- Claim C7 counterexample: the board query sorts with
`.sort({position: 1})` and no secondary key, and Mongo leaves the order
of equal sort keys unspecified — with two `todo` tasks sharing position
1, both orders of the tied pair are admissible board responses, so no
stable tie-break is guaranteed by the program. -/
theorem board_tie_order_unspecified :
    boardResults [mkT 5 "T" .todo 1 [], mkT 6 "T" .todo 1 []] "T" none
      (boardOf [mkT 5 "T" .todo 1 [], mkT 6 "T" .todo 1 []])
    ∧ boardResults [mkT 5 "T" .todo 1 [], mkT 6 "T" .todo 1 []] "T" none
      (boardOf [mkT 6 "T" .todo 1 [], mkT 5 "T" .todo 1 []])
    ∧ (boardOf [mkT 5 "T" .todo 1 [], mkT 6 "T" .todo 1 []]).todo
      ≠ (boardOf [mkT 6 "T" .todo 1 [], mkT 5 "T" .todo 1 []]).todo := by
  refine ⟨⟨[mkT 5 "T" .todo 1 [], mkT 6 "T" .todo 1 []], ⟨?_, ?_⟩, rfl⟩,
    ⟨[mkT 6 "T" .todo 1 [], mkT 5 "T" .todo 1 []], ⟨?_, ?_⟩, rfl⟩, ?_⟩
  · decide
  · decide
  · decide
  · decide
  · decide

/-- Claim C7 (amended): every admissible response of `getKanbanBoard`
groups exactly the team's active (non-deleted) tasks into the four
status columns, each ordered by `position` ascending; for the three
`todo` tasks with the distinct positions [3, 1, 2], every admissible
response lists them as [1, 2, 3] regardless of insertion order. (The
relative order of tasks sharing a `position` is unspecified: the query
carries no secondary sort key.) -/
theorem board_partition_ordering (store : List Task) (team : String)
    (pj : Option Nat) (b : Board) (hb : boardResults store team pj b) :
    (∀ t : Task, pj = none →
      (t ∈ b.todo ↔
        t ∈ store ∧ t.team_id = team ∧ t.deleted_at = none ∧ t.status = .todo)
      ∧ (t ∈ b.in_progress ↔
        t ∈ store ∧ t.team_id = team ∧ t.deleted_at = none ∧ t.status = .in_progress)
      ∧ (t ∈ b.done ↔
        t ∈ store ∧ t.team_id = team ∧ t.deleted_at = none ∧ t.status = .done)
      ∧ (t ∈ b.blocked ↔
        t ∈ store ∧ t.team_id = team ∧ t.deleted_at = none ∧ t.status = .blocked))
    ∧ (b.todo.Pairwise fun a c => a.position ≤ c.position)
    ∧ (b.in_progress.Pairwise fun a c => a.position ≤ c.position)
    ∧ (b.done.Pairwise fun a c => a.position ≤ c.position)
    ∧ (b.blocked.Pairwise fun a c => a.position ≤ c.position)
    ∧ (∀ b2 : Board,
        boardResults [mkT 1 "T" .todo 3 [], mkT 2 "T" .todo 1 [], mkT 3 "T" .todo 2 []]
          "T" none b2 → b2.todo.map Task.position = [1, 2, 3])
    ∧ (∀ b2 : Board,
        boardResults [mkT 2 "T" .todo 1 [], mkT 3 "T" .todo 2 [], mkT 1 "T" .todo 3 []]
          "T" none b2 → b2.todo.map Task.position = [1, 2, 3]) := by
  obtain ⟨sorted, ⟨hperm, hsort⟩, rfl⟩ := hb
  have hconc : ∀ (s1 : List Task), (s1.map Task.position).Perm [1, 2, 3] →
      (∀ u ∈ s1, u.status = TaskStatus.todo ∧ u.team_id = "T" ∧ u.deleted_at = none) →
      ∀ b2 : Board, boardResults s1 "T" none b2 → b2.todo.map Task.position = [1, 2, 3] := by
    intro s1 hpos hall b2 hb2
    obtain ⟨sorted2, ⟨hperm2, hsort2⟩, rfl⟩ := hb2
    have hbase : boardBase s1 "T" none = s1 := by
      refine List.filter_eq_self.mpr ?_
      intro u hu
      simp [(hall u hu).1, (hall u hu).2.1, (hall u hu).2.2]
    rw [hbase] at hperm2
    have htodo : (boardOf sorted2).todo = sorted2 := by
      refine List.filter_eq_self.mpr ?_
      intro u hu
      simp [(hall u (hperm2.mem_iff.mp hu)).1]
    rw [htodo]
    have hmp : (sorted2.map Task.position).Perm [1, 2, 3] :=
      (hperm2.map Task.position).trans hpos
    have hms : (sorted2.map Task.position).Pairwise (· ≤ ·) :=
      List.Pairwise.map Task.position (fun a c h => h) hsort2
    exact List.eq_of_perm_of_sorted hmp hms (by decide)
  refine ⟨?_, List.Pairwise.filter _ hsort, List.Pairwise.filter _ hsort,
    List.Pairwise.filter _ hsort, List.Pairwise.filter _ hsort,
    hconc _ (by decide) (by decide), hconc _ (by decide) (by decide)⟩
  intro t hpj
  subst hpj
  refine ⟨?_, ?_, ?_, ?_⟩ <;>
    · simp [boardOf, boardBase, List.mem_filter, hperm.mem_iff, beq_iff_eq,
        Option.isNone_iff_eq_none]
      tauto

/-- Concrete instance of `board_partition_ordering`: the position-sorted
response for the `[3, 1, 2]` store is an admissible board result, and
its `todo` column is sorted. -/
theorem board_partition_ordering_witness :
    (boardOf [mkT 2 "T" .todo 1 [], mkT 3 "T" .todo 2 [], mkT 1 "T" .todo 3 []]).todo.Pairwise
      (fun a c => a.position ≤ c.position) :=
  (board_partition_ordering
    [mkT 1 "T" .todo 3 [], mkT 2 "T" .todo 1 [], mkT 3 "T" .todo 2 []] "T" none
    (boardOf [mkT 2 "T" .todo 1 [], mkT 3 "T" .todo 2 [], mkT 1 "T" .todo 3 []])
    ⟨[mkT 2 "T" .todo 1 [], mkT 3 "T" .todo 2 [], mkT 1 "T" .todo 3 []],
      ⟨by decide, by decide⟩, rfl⟩).2.1

/-- Claim C9: every rejected operation (`NotFound` or `Conflict`) leaves
the store exactly as it was — all such checks run before the single
mutating store call of each operation. -/
theorem rejected_ops_zero_writes :
    (∀ (store : List Task) (id : Nat) (p : UpdateTaskDto) (team user : String)
        (now : Nat) (e : Err) (s2 : List Task),
        tasksUpdate store id p team user now = (.error e, s2) → s2 = store)
    ∧ (∀ (store : List Task) (id : Nat) (team user : String) (now : Nat)
        (e : Err) (s2 : List Task),
        tasksRemove store id team user now = (.error e, s2) → s2 = store)
    ∧ (∀ (store : List Task) (id : Nat) (team user : String) (now : Nat)
        (e : Err) (s2 : List Task),
        tasksRestore store id team user now = (.error e, s2) → s2 = store)
    ∧ (∀ (store : List Task) (id : Nat) (pos : Rat) (team user : String) (now : Nat)
        (e : Err) (s2 : List Task),
        tasksUpdatePosition store id pos team user now = (.error e, s2) → s2 = store)
    ∧ (∀ (store : List Project) (newId : Nat) (dto : CreateProjectDto)
        (team user : String) (now : Nat) (e : Err) (s2 : List Project),
        projectsCreate store newId dto team user now = (.error e, s2) → s2 = store)
    ∧ (∀ (store : List Project) (id : Nat) (dto : UpdateProjectDto)
        (team user : String) (now : Nat) (e : Err) (s2 : List Project),
        projectsUpdate store id dto team user now = (.error e, s2) → s2 = store)
    ∧ (∀ (store : List Project) (id : Nat) (team user : String) (now : Nat)
        (e : Err) (s2 : List Project),
        projectsRestore store id team user now = (.error e, s2) → s2 = store) := by
  refine ⟨?_, ?_, ?_, ?_, ?_, ?_, ?_⟩
  · intro store id p team user now e s2 h
    rw [tasksUpdate] at h
    cases hf : findOneT store id team with
    | none => simp only [hf] at h; simp at h; exact h.2.symm
    | some found =>
      simp only [hf] at h
      cases hu : (updateById store id fun u => applyUpdateDoc u found p user now).1 with
      | none =>
        have h2 := updateById_none hu
        rw [show updateById store id (fun u => applyUpdateDoc u found p user now)
            = ((updateById store id fun u => applyUpdateDoc u found p user now).1,
               (updateById store id fun u => applyUpdateDoc u found p user now).2) from rfl,
          hu, h2] at h
        simp at h
        exact h.2.symm
      | some t2 =>
        rw [show updateById store id (fun u => applyUpdateDoc u found p user now)
            = ((updateById store id fun u => applyUpdateDoc u found p user now).1,
               (updateById store id fun u => applyUpdateDoc u found p user now).2) from rfl,
          hu] at h
        simp at h
  · intro store id team user now e s2 h
    rw [tasksRemove] at h
    cases hf : findOneT store id team with
    | none => simp only [hf] at h; simp at h; exact h.2.symm
    | some found => simp only [hf] at h; simp at h
  · intro store id team user now e s2 h
    rw [tasksRestore] at h
    cases hf : findDeletedT store id team with
    | none => simp only [hf] at h; simp at h; exact h.2.symm
    | some found =>
      simp only [hf] at h
      cases hu : (updateById store id
          fun u => applyRestore u found.deleted_at user now).1 with
      | none =>
        have h2 := updateById_none hu
        rw [show updateById store id (fun u => applyRestore u found.deleted_at user now)
            = ((updateById store id fun u => applyRestore u found.deleted_at user now).1,
               (updateById store id fun u => applyRestore u found.deleted_at user now).2)
            from rfl, hu, h2] at h
        simp at h
        exact h.2.symm
      | some t2 =>
        rw [show updateById store id (fun u => applyRestore u found.deleted_at user now)
            = ((updateById store id fun u => applyRestore u found.deleted_at user now).1,
               (updateById store id fun u => applyRestore u found.deleted_at user now).2)
            from rfl, hu] at h
        simp at h
  · intro store id pos team user now e s2 h
    rw [tasksUpdatePosition] at h
    cases hf : findOneT store id team with
    | none => simp only [hf] at h; simp at h; exact h.2.symm
    | some found =>
      simp only [hf] at h
      cases hu : (updateById store id fun u => applyPosition u pos now).1 with
      | none =>
        have h2 := updateById_none hu
        rw [show updateById store id (fun u => applyPosition u pos now)
            = ((updateById store id fun u => applyPosition u pos now).1,
               (updateById store id fun u => applyPosition u pos now).2) from rfl,
          hu, h2] at h
        simp at h
        exact h.2.symm
      | some t2 =>
        rw [show updateById store id (fun u => applyPosition u pos now)
            = ((updateById store id fun u => applyPosition u pos now).1,
               (updateById store id fun u => applyPosition u pos now).2) from rfl,
          hu] at h
        simp at h
  · intro store newId dto team user now e s2 h
    rw [projectsCreate] at h
    cases hf : activeNamed store dto.name team with
    | none => simp only [hf] at h; simp at h
    | some found => simp only [hf] at h; simp at h; exact h.2.symm
  · intro store id dto team user now e s2 h
    rw [projectsUpdate] at h
    cases hf : findOneP store id team with
    | none => simp only [hf] at h; simp at h; exact h.2.symm
    | some project =>
      simp only [hf] at h
      by_cases hr : (match dto.name with
        | some n => n != "" && n != project.name &&
            (store.any fun p =>
              p.name == n && p.team_id == team && p.id != id && p.deleted_at.isNone)
        | none => false)
      · rw [if_pos hr] at h
        simp at h
        exact h.2.symm
      · rw [if_neg hr] at h
        cases hu : (updateByIdP store id fun p =>
            { p with
              name := dto.name.getD p.name
              description := match dto.description with
                | some d => some d | none => p.description
              updated_at := now }).1 with
        | none =>
          have h2 := updateByIdP_none hu
          rw [show (updateByIdP store id fun p =>
              { p with
                name := dto.name.getD p.name
                description := match dto.description with
                  | some d => some d | none => p.description
                updated_at := now })
              = ((updateByIdP store id fun p =>
                  { p with
                    name := dto.name.getD p.name
                    description := match dto.description with
                      | some d => some d | none => p.description
                    updated_at := now }).1,
                 (updateByIdP store id fun p =>
                  { p with
                    name := dto.name.getD p.name
                    description := match dto.description with
                      | some d => some d | none => p.description
                    updated_at := now }).2) from rfl, hu, h2] at h
          simp at h
          exact h.2.symm
        | some p2 =>
          rw [show (updateByIdP store id fun p =>
              { p with
                name := dto.name.getD p.name
                description := match dto.description with
                  | some d => some d | none => p.description
                updated_at := now })
              = ((updateByIdP store id fun p =>
                  { p with
                    name := dto.name.getD p.name
                    description := match dto.description with
                      | some d => some d | none => p.description
                    updated_at := now }).1,
                 (updateByIdP store id fun p =>
                  { p with
                    name := dto.name.getD p.name
                    description := match dto.description with
                      | some d => some d | none => p.description
                    updated_at := now }).2) from rfl, hu] at h
          simp at h
  · intro store id team user now e s2 h
    rw [projectsRestore] at h
    cases hf : findDeletedP store id team with
    | none => simp only [hf] at h; simp at h; exact h.2.symm
    | some project =>
      simp only [hf] at h
      cases ha : activeNamed store project.name team with
      | some q => simp only [ha] at h; simp at h; exact h.2.symm
      | none =>
        simp only [ha] at h
        cases hu : (updateByIdP store id fun p =>
            { p with deleted_at := none, updated_at := now }).1 with
        | none =>
          have h2 := updateByIdP_none hu
          rw [show (updateByIdP store id fun p =>
              { p with deleted_at := none, updated_at := now })
              = ((updateByIdP store id fun p =>
                  { p with deleted_at := none, updated_at := now }).1,
                 (updateByIdP store id fun p =>
                  { p with deleted_at := none, updated_at := now }).2) from rfl,
            hu, h2] at h
          simp at h
          exact h.2.symm
        | some p2 =>
          rw [show (updateByIdP store id fun p =>
              { p with deleted_at := none, updated_at := now })
              = ((updateByIdP store id fun p =>
                  { p with deleted_at := none, updated_at := now }).1,
                 (updateByIdP store id fun p =>
                  { p with deleted_at := none, updated_at := now }).2) from rfl,
            hu] at h
          simp at h

/-- Claim C6: restoring a soft-deleted project whose name collides with an
active project of the same team fails with `Conflict` (and writes
nothing); after the active project is renamed, the very same restore
succeeds — the uniqueness check runs at restore time against the
currently-active projects only. Task restore, by contrast, succeeds
unconditionally once a soft-deleted team document is found. -/
theorem restore_uniqueness (store : List Project) (A D : Project)
    (team x y user : String) (n1 n2 : Nat)
    (hnd : (store.map Project.id).Nodup)
    (hA : A ∈ store) (hAt : A.team_id = team) (hAact : A.deleted_at = none)
    (hAx : A.name = x)
    (hD : D ∈ store) (hDt : D.team_id = team) (hDdel : D.deleted_at ≠ none)
    (hDx : D.name = x)
    (hy0 : y ≠ "") (hyx : y ≠ x)
    (hnoY : ∀ p ∈ store, p.team_id = team → p.deleted_at = none → p.name ≠ y)
    (huniq : ∀ p ∈ store, p.team_id = team → p.deleted_at = none → p.name = x → p = A) :
    projectsRestore store D.id team user n1 = (.error .conflict, store)
    ∧ (projectsUpdate store A.id { name := some y } team user n1).1
        = .ok { A with name := y, updated_at := n1 }
    ∧ (projectsRestore (projectsUpdate store A.id { name := some y } team user n1).2
          D.id team user n2).1
        = .ok { D with deleted_at := none, updated_at := n2 }
    ∧ ∀ (tstore : List Task) (tid : Nat) (tteam tuser : String) (tn : Nat) (ft : Task),
        findDeletedT tstore tid tteam = some ft →
          (tasksRestore tstore tid tteam tuser tn).1.isOk = true := by
  have hfD : findDeletedP store D.id team = some D := findDeletedP_of_nodup hnd hD hDt hDdel
  have hconf : (activeNamed store D.name team).isSome := by
    refine List.find?_isSome.mpr ⟨A, hA, ?_⟩
    simp [hAx, hDx, hAt, hAact]
  obtain ⟨q, hq⟩ := Option.isSome_iff_exists.mp hconf
  have hfA : findOneP store A.id team = some A := findOneP_of_nodup hnd hA hAt hAact
  have hany : (store.any fun p =>
      p.name == y && p.team_id == team && p.id != A.id && p.deleted_at.isNone) = false := by
    rw [List.any_eq_false]
    intro p hp hcon
    simp only [Bool.and_eq_true, beq_iff_eq, bne_iff_ne,
      Option.isNone_iff_eq_none] at hcon
    exact hnoY p hp (by tauto) (by tauto) (by tauto)
  have hupd : projectsUpdate store A.id { name := some y } team user n1
      = (.ok { A with name := y, updated_at := n1 },
         store.map fun p =>
           if p.id = A.id then { p with name := y, updated_at := n1 } else p) := by
    have hbne : (y != "") = true := bne_iff_ne.mpr hy0
    have hbne2 : (y != A.name) = true := bne_iff_ne.mpr (fun he => hyx (he.trans hAx))
    simp only [projectsUpdate, hfA, hany, hbne, hbne2, Bool.true_and, Bool.and_false,
      Bool.false_and, Option.getD_some]
    rw [if_neg Bool.false_ne_true, updateByIdP_eq (fun p =>
      { id := p.id, name := y, description := p.description, team_id := p.team_id,
        created_by := p.created_by, deleted_at := p.deleted_at,
        created_at := p.created_at, updated_at := n1 }) hnd hA rfl]
  have hDA : D.id ≠ A.id := by
    intro he
    exact hDdel ((project_id_inj hnd hD hA he) ▸ hAact)
  have hgid : ∀ p : Project,
      ((fun p => if p.id = A.id then { p with name := y, updated_at := n1 } else p) p).id
        = p.id := by
    intro p
    by_cases h : p.id = A.id <;> simp [h]
  have hnd2 : (((store.map fun p =>
      if p.id = A.id then { p with name := y, updated_at := n1 } else p)).map
        Project.id).Nodup := map_ids_nodupP _ hgid hnd
  have hgD : (fun p => if p.id = A.id then { p with name := y, updated_at := n1 } else p) D
      = D := if_neg hDA
  have hD2 : D ∈ store.map fun p =>
      if p.id = A.id then { p with name := y, updated_at := n1 } else p :=
    hgD ▸ List.mem_map_of_mem _ hD
  have hfD2 : findDeletedP (store.map fun p =>
      if p.id = A.id then { p with name := y, updated_at := n1 } else p) D.id team
        = some D := findDeletedP_of_nodup hnd2 hD2 hDt hDdel
  have hnoX2 : activeNamed (store.map fun p =>
      if p.id = A.id then { p with name := y, updated_at := n1 } else p) D.name team
        = none := by
    rw [activeNamed, List.find?_eq_none]
    intro q2 hq2 hcon
    simp only [Bool.and_eq_true, beq_iff_eq, Option.isNone_iff_eq_none] at hcon
    obtain ⟨w, hw, hwq⟩ := List.mem_map.mp hq2
    by_cases hwid : w.id = A.id
    · have hq2eq : q2 = { w with name := y, updated_at := n1 } := by
        rw [← hwq]
        exact (if_pos hwid).symm ▸ rfl
      rw [hq2eq] at hcon
      exact hyx ((show ({ w with name := y, updated_at := n1 } : Project).name = y from rfl)
        ▸ hcon.1.1 |>.symm ▸ hDx ▸ rfl)
    · have hq2eq : q2 = w := by
        rw [← hwq]
        exact (if_neg hwid).symm ▸ rfl
      rw [hq2eq] at hcon
      have hwA : w = A := huniq w hw hcon.1.2 hcon.2 (hcon.1.1.trans hDx)
      exact hwid (by rw [hwA])
  refine ⟨?_, ?_, ?_, ?_⟩
  · simp only [projectsRestore, hfD, hq]
  · rw [hupd]
  · have h2 : (projectsUpdate store A.id { name := some y } team user n1).2
        = store.map fun p =>
            if p.id = A.id then { p with name := y, updated_at := n1 } else p := by
      rw [hupd]
    rw [h2]
    simp only [projectsRestore, hfD2, hnoX2,
      updateByIdP_eq (fun p => { p with deleted_at := none, updated_at := n2 })
        hnd2 hD2 rfl]
  · intro tstore tid tteam tuser tn ft hft
    have hspec := findDeletedT_spec hft
    have hsome := updateById_isSome
      (f := fun u => applyRestore u ft.deleted_at tuser tn) ⟨ft, hspec.1, hspec.2.1⟩
    obtain ⟨t2, ht2⟩ := Option.isSome_iff_exists.mp hsome
    simp only [tasksRestore, hft]
    rw [show updateById tstore tid (fun u => applyRestore u ft.deleted_at tuser tn)
        = ((updateById tstore tid fun u => applyRestore u ft.deleted_at tuser tn).1,
           (updateById tstore tid fun u => applyRestore u ft.deleted_at tuser tn).2)
        from rfl, ht2]
    rfl

/-- Concrete instance of `restore_uniqueness`: the two-project store
`[pA, pD]` (an active "X" and a soft-deleted "X" in team "T"). -/
theorem restore_uniqueness_witness :
    projectsRestore [pA, pD] pD.id "T" "u" 8 = (.error .conflict, [pA, pD])
    ∧ (projectsRestore (projectsUpdate [pA, pD] pA.id { name := some "Y" } "T" "u" 8).2
          pD.id "T" "u" 9).1
        = .ok { pD with deleted_at := none, updated_at := 9 } :=
  ⟨(restore_uniqueness [pA, pD] pA pD "T" "X" "Y" "u" 8 9 (by decide)
      (by decide) rfl rfl rfl (by decide) rfl (by decide) rfl
      (by decide) (by decide) (by decide) (by decide)).1,
   (restore_uniqueness [pA, pD] pA pD "T" "X" "Y" "u" 8 9 (by decide)
      (by decide) rfl rfl rfl (by decide) rfl (by decide) rfl
      (by decide) (by decide) (by decide) (by decide)).2.2.1⟩

/-- Concrete instance of `rejected_ops_zero_writes`: an update against an
empty store and a create hitting an existing active name, both leaving
the store unchanged. -/
theorem rejected_ops_zero_writes_witness :
    (tasksUpdate [] 7 {} "T" "u" 0).2 = []
    ∧ (projectsCreate [pA] 9 { name := "X" } "T" "u" 0).2 = [pA] :=
  ⟨rejected_ops_zero_writes.1 [] 7 {} "T" "u" 0 .notFound
      (tasksUpdate [] 7 {} "T" "u" 0).2 rfl,
   (rejected_ops_zero_writes.2.2.2.2.1) [pA] 9 { name := "X" } "T" "u" 0 .conflict
      (projectsCreate [pA] 9 { name := "X" } "T" "u" 0).2 rfl⟩

/-- Concrete instance of `findAll_default_excludes_done`. -/
theorem findAll_default_excludes_done_witness :
    (mkT 1 "T" .done 1 []) ∉ findAllT [mkT 1 "T" .done 1 []] "T" {}
    ∧ (mkT 1 "T" .done 1 []) ∈ findAllT [mkT 1 "T" .done 1 []] "T" { include_completed := true }
    ∧ (mkT 1 "T" .done 1 []) ∈ findAllT [mkT 1 "T" .done 1 []] "T" { status := some .done } :=
  findAll_default_excludes_done [mkT 1 "T" .done 1 []] (mkT 1 "T" .done 1 []) "T"
    (List.mem_singleton.mpr rfl) rfl rfl rfl

end Nexus
